import Mathlib

/-!
Shallow embedding of the live voice session manager of the Lumiere virtual
stylist (src/components/VoiceMode.tsx, with the tool declaration from
src/services/geminiService.ts). The component's mutable refs become an
explicit record, and each handler becomes a function from that record (and
the relevant inputs) to a new record together with the list of externally
observable events it performs, in order.
-/

namespace Lumiere

/-- A product descriptor as carried in the displayProducts tool-call payload
(schema in src/services/geminiService.ts: brand, name, price, description
required; category optional). The code never inspects these fields. -/
structure ToolProduct where
  brand : String
  name : String
  price : String
  description : String
  category : Option String
  deriving DecidableEq, Repr

/-- Externally observable actions of VoiceMode, in the order performed. -/
inductive Ev where
  | closeSession : Ev
  | disconnectProcessor : Ev
  | disconnectSource : Ev
  | stopTracks : Ev
  | closeInputCtx : Ev
  | closeOutputCtx : Ev
  | notifyClosed : Ev
  | userTranscript (text : String) (isFinal : Bool) : Ev
  | modelTranscript (text : String) (isFinal : Bool) : Ev
  | productsFound (products : Option (List ToolProduct)) : Ev
  | toolResponse (callId : String) : Ev
  | sendRealtimeInput (data : String) : Ev
  | logError (msg : String) : Ev
  deriving DecidableEq, Repr

/-- The component's refs (VoiceMode.tsx lines 25-36). A Bool field is true
iff the corresponding ref currently holds a live (non-null) object. -/
structure Refs where
  activeSession : Bool
  processor : Bool
  source : Bool
  stream : Bool
  inputCtx : Bool
  outputCtx : Bool
  userBuf : String
  modelBuf : String
  nextStartTime : ℚ
  deriving DecidableEq, Repr

/-- The cleanup callback (VoiceMode.tsx lines 39-84): close the session if
present, disconnect processor and source, stop the media stream tracks,
close both audio contexts, then clear the transcript buffers and reset the
playback watermark. Every ref is nulled. -/
def cleanup (s : Refs) : Refs × List Ev :=
  let evs :=
    (if s.activeSession then [Ev.closeSession] else []) ++
    (if s.processor then [Ev.disconnectProcessor] else []) ++
    (if s.source then [Ev.disconnectSource] else []) ++
    (if s.stream then [Ev.stopTracks] else []) ++
    (if s.inputCtx then [Ev.closeInputCtx] else []) ++
    (if s.outputCtx then [Ev.closeOutputCtx] else [])
  ({ activeSession := false, processor := false, source := false,
     stream := false, inputCtx := false, outputCtx := false,
     userBuf := "", modelBuf := "", nextStartTime := 0 }, evs)

/-- The onclose callback (VoiceMode.tsx lines 266-271): notify the host via
onClose only when the mounted guard is true. -/
def oncloseHandler (mounted : Bool) : List Ev :=
  if mounted then [Ev.notifyClosed] else []

/-- The onerror callback (VoiceMode.tsx lines 272-277): log the error and do
nothing else; the onClose call is commented out in the source. -/
def onerrorHandler (s : Refs) : Refs × List Ev :=
  (s, [Ev.logError "Live Session Error"])

/-- The catch branch of onmessage (VoiceMode.tsx lines 262-264): a malformed
event is logged and the session state is left untouched. -/
def onmessageCatch (s : Refs) : Refs × List Ev :=
  (s, [Ev.logError "Error processing message"])

/-- Explicit close while mounted: the host flips isOpen, the effect runs
cleanup, and since cleanup called close on the live session the transport
later delivers onclose, which notifies the host iff still mounted. -/
def explicitCloseTrace (s : Refs) (mounted : Bool) : List Ev :=
  (cleanup s).2 ++ (if s.activeSession then oncloseHandler mounted else [])

/-- Owner teardown (VoiceMode.tsx lines 95-98): the effect destructor sets
the mounted guard to false before running cleanup, so the later onclose
delivery is a no-op. -/
def ownerTeardownTrace (s : Refs) : List Ev :=
  explicitCloseTrace s false

/-- Remote-initiated close: the transport delivers onclose first (notifying
the host), the host then flips isOpen and the effect runs cleanup. -/
def remoteCloseTrace (s : Refs) (mounted : Bool) : List Ev :=
  oncloseHandler mounted ++ (cleanup s).2

/-- Calling close twice in a row: cleanup, the onclose delivery triggered by
the first close of the live session, then cleanup again. -/
def doubleCloseTrace (s : Refs) (mounted : Bool) : List Ev :=
  (cleanup s).2 ++ (if s.activeSession then oncloseHandler mounted else []) ++
    (cleanup (cleanup s).1).2

/-- Resolution of the connection handshake (VoiceMode.tsx lines 281-288):
store the session in activeSessionRef when the mounted guard holds,
otherwise close the fresh session immediately and store nothing. -/
def handshakeResolved (mounted : Bool) (s : Refs) : Refs × List Ev :=
  if mounted then ({ s with activeSession := true }, [])
  else (s, [Ev.closeSession])

/-- A session with every resource live, as right after a successful open. -/
abbrev Refs.fullyOpen (s : Refs) : Prop :=
  s.activeSession = true ∧ s.processor = true ∧ s.source = true ∧
  s.stream = true ∧ s.inputCtx = true ∧ s.outputCtx = true

/-- A concrete fully open state with nonempty buffers and a nonzero
watermark, used to instantiate the theorems. -/
def openState : Refs :=
  { activeSession := true, processor := true, source := true, stream := true,
    inputCtx := true, outputCtx := true, userBuf := "hello",
    modelBuf := "hi there", nextStartTime := 3 }

/-- The transcript-relevant part of a LiveServerMessage's serverContent
(VoiceMode.tsx lines 197-219). -/
structure ServerContent where
  inputTranscription : Option String
  outputTranscription : Option String
  turnComplete : Bool
  deriving DecidableEq, Repr

/-- The user transcript buffer after the delta step of one message
(VoiceMode.tsx lines 200-203): append the delta text when present. -/
def accumUser (u : String) (sc : ServerContent) : String :=
  match sc.inputTranscription with
  | some t => u ++ t
  | none => u

/-- The model transcript buffer after the delta step of one message
(VoiceMode.tsx lines 204-207): append the delta text when present. -/
def accumModel (m : String) (sc : ServerContent) : String :=
  match sc.outputTranscription with
  | some t => m ++ t
  | none => m

/-- The transcript handling of one onmessage call (VoiceMode.tsx lines
197-219): append each present delta and emit a non-final update holding the
whole buffer; then, on turnComplete, emit one final update per direction
whose buffer is nonempty (JS truthiness of a string) and reset that buffer. -/
def handleTranscripts (u m : String) (sc : ServerContent) :
    String × String × List Ev :=
  let u1 := accumUser u sc
  let evs1 := if sc.inputTranscription.isSome
    then [Ev.userTranscript u1 false] else []
  let m1 := accumModel m sc
  let evs2 := if sc.outputTranscription.isSome
    then [Ev.modelTranscript m1 false] else []
  if sc.turnComplete then
    let evsU := if u1 = "" then [] else [Ev.userTranscript u1 true]
    let u2 := if u1 = "" then u1 else ""
    let evsM := if m1 = "" then [] else [Ev.modelTranscript m1 true]
    let m2 := if m1 = "" then m1 else ""
    (u2, m2, evs1 ++ evs2 ++ evsU ++ evsM)
  else
    (u1, m1, evs1 ++ evs2)

/-- A message carrying only a user-direction transcription delta. -/
def userDeltaMsg (d : String) : ServerContent :=
  { inputTranscription := some d, outputTranscription := none,
    turnComplete := false }

/-- A message carrying only an agent-direction transcription delta. -/
def modelDeltaMsg (d : String) : ServerContent :=
  { inputTranscription := none, outputTranscription := some d,
    turnComplete := false }

/-- Transcript handling of a sequence of messages, threading the buffers and
concatenating the emitted events in order. -/
def processMessages (u m : String) : List ServerContent → String × String × List Ev
  | [] => (u, m, [])
  | sc :: rest =>
    let r := handleTranscripts u m sc
    let r2 := processMessages r.1 r.2.1 rest
    (r2.1, r2.2.1, r.2.2 ++ r2.2.2)

/-- The sequence of buffer contents observed after each successive
user-direction delta, starting from buffer u. -/
def accumTexts (u : String) : List String → List String
  | [] => []
  | d :: ds => (u ++ d) :: accumTexts (u ++ d) ds

/-- One function call of an inbound toolCall message (VoiceMode.tsx lines
242-261): the code reads only name, id and args.products, with no
validation of the products value. -/
structure FunctionCall where
  id : String
  name : String
  products : Option (List ToolProduct)
  deriving DecidableEq, Repr

/-- The toolCall loop of onmessage (VoiceMode.tsx lines 242-261): for each
call named displayProducts, pass args.products to onProductsFound as is and
then send a ToolResponse for that call's id when the mounted guard holds;
calls with any other name are skipped. -/
def handleToolCallMsg (mounted : Bool) (fcs : List FunctionCall) : List Ev :=
  fcs.flatMap (fun fc =>
    if fc.name = "displayProducts" then
      Ev.productsFound fc.products ::
        (if mounted then [Ev.toolResponse fc.id] else [])
    else [])

/-- The scheduling step of the audio-output branch of onmessage
(VoiceMode.tsx lines 229-238) run over a list of inbound buffers, each given
as the pair (output-clock reading at scheduling time, decoded duration):
startTime is max of now and the watermark, and the watermark becomes
startTime plus the duration. Returns the (startTime, duration) pairs. -/
def runSchedule (wm : ℚ) : List (ℚ × ℚ) → List (ℚ × ℚ)
  | [] => []
  | (now, dur) :: rest =>
    let startTime := max now wm
    (startTime, dur) :: runSchedule (startTime + dur) rest

/-- The successive values of nextStartTimeRef after each scheduling step of
runSchedule. -/
def wmTrace (wm : ℚ) : List (ℚ × ℚ) → List ℚ
  | [] => []
  | (now, dur) :: rest =>
    (max now wm + dur) :: wmTrace (max now wm + dur) rest

/-- Truncation of a rational toward zero, as JavaScript's ToIntegerOrInfinity
does on a number before a typed-array element conversion. -/
def ratTrunc (x : ℚ) : ℤ :=
  if 0 ≤ x then ⌊x⌋ else ⌈x⌉

/-- JavaScript's ToInt16 on a number, as performed by the assignment into an
Int16Array element (VoiceMode.tsx line 165): truncate toward zero, reduce
modulo 2^16, and map the residue into the signed 16-bit range. -/
def toInt16 (x : ℚ) : ℤ :=
  if ratTrunc x % 65536 < 32768 then ratTrunc x % 65536
  else ratTrunc x % 65536 - 65536

/-- The Int16Array element written for one captured sample (VoiceMode.tsx
lines 164-166): the sample scaled by 32768 and converted by ToInt16. -/
def sampleToInt16 (x : ℚ) : ℤ :=
  toInt16 (x * 32768)

/-- The two bytes of one 16-bit element of the Int16Array's backing buffer,
low byte first, as laid out on a little-endian platform. -/
def int16ToLEBytes (v : ℤ) : List ℕ :=
  let u := (v % 65536).toNat
  [u % 256, u / 256]

/-- The byte content of int16.buffer (VoiceMode.tsx line 168): the 16-bit
elements in order, each as two little-endian bytes. -/
def packLE (vs : List ℤ) : List ℕ :=
  vs.flatMap int16ToLEBytes

/-- The base64 alphabet of RFC 4648. -/
def base64Chars : List Char :=
  "ABCDEFGHIJKLMNOPQRSTUVWXYZabcdefghijklmnopqrstuvwxyz0123456789+/".toList

/-- The base64 digit for a 6-bit value. -/
def base64Char (n : ℕ) : Char :=
  base64Chars.getD n 'A'

/-- Modelled from the spec: arrayBufferToBase64 is imported from
src/services/audioUtils.ts, which is not among the source files; the spec
describes it as the transport's text-safe (base64) representation of the
buffer's bytes, modelled here as standard RFC 4648 base64 with padding. -/
def arrayBufferToBase64 : List ℕ → String
  | [] => ""
  | [b1] =>
    let n := b1 % 256 * 65536
    String.mk [base64Char (n / 262144 % 64), base64Char (n / 4096 % 64)] ++ "=="
  | [b1, b2] =>
    let n := b1 % 256 * 65536 + b2 % 256 * 256
    String.mk [base64Char (n / 262144 % 64), base64Char (n / 4096 % 64),
      base64Char (n / 64 % 64)] ++ "="
  | b1 :: b2 :: b3 :: rest =>
    let n := b1 % 256 * 65536 + b2 % 256 * 256 + b3 % 256
    String.mk [base64Char (n / 262144 % 64), base64Char (n / 4096 % 64),
      base64Char (n / 64 % 64), base64Char (n % 64)] ++ arrayBufferToBase64 rest

/-- The outbound encoding performed by onaudioprocess (VoiceMode.tsx lines
158-168): scale each float sample by 32768, convert to Int16Array elements,
and base64-encode the backing buffer's little-endian bytes. -/
def onaudioprocessEncode (inputData : List ℚ) : String :=
  arrayBufferToBase64 (packLE (inputData.map sampleToInt16))

/-- The outbound side of onaudioprocess (VoiceMode.tsx lines 158-185): when
the mounted guard fails the frame is dropped before encoding; otherwise the
encoded frame is sent as realtime input. -/
def onaudioprocessSend (mounted : Bool) (inputData : List ℚ) : List Ev :=
  if mounted then [Ev.sendRealtimeInput (onaudioprocessEncode inputData)]
  else []

/-- The input AudioContext sample rate (VoiceMode.tsx line 114). -/
def inputSampleRate : ℕ := 16000

/-- The output AudioContext sample rate (VoiceMode.tsx line 115). -/
def outputSampleRate : ℕ := 24000

/-- The ScriptProcessor frame size (VoiceMode.tsx line 155). -/
def captureFrameSize : ℕ := 4096

/-- The 16-bit signed integer the spec's encodeOutbound produces for one
scaled sample: truncation toward zero of the sample times 32768, wrapped
into the signed 16-bit range (only the value 32768, from a sample of
exactly 1, wraps). -/
def int16Spec (x : ℚ) : ℤ :=
  let t := ratTrunc (x * 32768)
  if t = 32768 then -32768 else t

/-- The teardown routine never notifies the host itself: notifyClosed is not
among the events cleanup performs. -/
theorem cleanup_no_notify (s : Refs) : Ev.notifyClosed ∉ (cleanup s).2 := by
  rcases s with ⟨a, p, so, st, ic, oc, ub, mb, ns⟩
  cases a <;> cases p <;> cases so <;> cases st <;> cases ic <;> cases oc <;>
    simp [cleanup]

/-- A toolCall message whose calls all name displayProducts dispatches each
call's payload followed by its acknowledgment. -/
theorem handleToolCallMsg_all (fcs : List FunctionCall) :
    (∀ fc ∈ fcs, fc.name = "displayProducts") →
    handleToolCallMsg true fcs =
      fcs.flatMap (fun fc =>
        [Ev.productsFound fc.products, Ev.toolResponse fc.id]) := by
  induction fcs with
  | nil => intro _; rfl
  | cons fc rest ih =>
    intro h
    have hfc : fc.name = "displayProducts" := h fc (by simp)
    have hr := ih (fun gc hgc => h gc (List.mem_cons_of_mem _ hgc))
    simp only [handleToolCallMsg, List.flatMap_cons, hfc, if_true] at hr ⊢
    simp [hr]

/-- A toolCall message with no call named displayProducts dispatches
nothing. -/
theorem handleToolCallMsg_none (gcs : List FunctionCall) :
    (∀ gc ∈ gcs, gc.name ≠ "displayProducts") →
    handleToolCallMsg true gcs = [] := by
  induction gcs with
  | nil => intro _; rfl
  | cons gc rest ih =>
    intro h
    have hgc : ¬gc.name = "displayProducts" := h gc (by simp)
    have hr := ih (fun x hx => h x (List.mem_cons_of_mem _ hx))
    simp only [handleToolCallMsg, List.flatMap_cons, hgc, if_false] at hr ⊢
    simp [hr]
    exact fun x hx => h x (List.mem_cons_of_mem _ hx)

/-- C1 counterexample: from the fully open state, owner teardown produces
zero host notifications (the mounted guard is already false when the onclose
delivery arrives), and in the remote-initiated close the notification is the
first event, preceding every teardown step, so the teardown does not end
with exactly one host notification in either path. -/
theorem c1_counterexample :
    (ownerTeardownTrace openState).count Ev.notifyClosed = 0 ∧
    (remoteCloseTrace openState true).take 1 = [Ev.notifyClosed] := by
  decide

/-- C1 amended: from any fully open state, the teardown routine performs, in
this exact order, the remote-session close, the capture-processing
disconnects, the microphone release, and the input and output device
releases, and leaves both transcript buffers empty with the watermark reset
to zero; the host is notified exactly once in the explicit-close and
remote-close paths (after local teardown in the first, before it in the
second) and never in the owner-teardown path. -/
theorem c1_teardown_order (s : Refs) (h : s.fullyOpen) :
    (cleanup s).2 = [Ev.closeSession, Ev.disconnectProcessor,
      Ev.disconnectSource, Ev.stopTracks, Ev.closeInputCtx,
      Ev.closeOutputCtx] ∧
    (cleanup s).1.userBuf = "" ∧ (cleanup s).1.modelBuf = "" ∧
    (cleanup s).1.nextStartTime = 0 ∧
    (explicitCloseTrace s true).count Ev.notifyClosed = 1 ∧
    (explicitCloseTrace s true).getLast? = some Ev.notifyClosed ∧
    (ownerTeardownTrace s).count Ev.notifyClosed = 0 ∧
    (remoteCloseTrace s true).count Ev.notifyClosed = 1 := by
  obtain ⟨h1, h2, h3, h4, h5, h6⟩ := h
  simp [cleanup, explicitCloseTrace, ownerTeardownTrace, remoteCloseTrace,
    oncloseHandler, h1, h2, h3, h4, h5, h6, List.count_append]

/-- C1 witness: the amended teardown facts at the concrete open state. -/
theorem c1_teardown_order_witness :
    (cleanup openState).2 = [Ev.closeSession, Ev.disconnectProcessor,
      Ev.disconnectSource, Ev.stopTracks, Ev.closeInputCtx,
      Ev.closeOutputCtx] ∧
    (cleanup openState).1.userBuf = "" ∧ (cleanup openState).1.modelBuf = "" ∧
    (cleanup openState).1.nextStartTime = 0 ∧
    (explicitCloseTrace openState true).count Ev.notifyClosed = 1 ∧
    (explicitCloseTrace openState true).getLast? = some Ev.notifyClosed ∧
    (ownerTeardownTrace openState).count Ev.notifyClosed = 0 ∧
    (remoteCloseTrace openState true).count Ev.notifyClosed = 1 :=
  c1_teardown_order openState (by decide)

/-- C2: running the teardown routine a second time changes nothing and
performs no external action (idempotence: every ref is already released and
every buffer already reset), and a double close from a state with a live
session yields exactly one onClosed notification to the host. -/
theorem c2_close_idempotent (s : Refs) (h : s.activeSession = true) :
    cleanup (cleanup s).1 = ((cleanup s).1, []) ∧
    (doubleCloseTrace s true).count Ev.notifyClosed = 1 := by
  refine ⟨rfl, ?_⟩
  simp [doubleCloseTrace, oncloseHandler, h, List.count_append,
    List.count_eq_zero.mpr (cleanup_no_notify s),
    List.count_eq_zero.mpr (cleanup_no_notify (cleanup s).1)]

/-- C2 witness: double close at the concrete open state. -/
theorem c2_close_idempotent_witness :
    cleanup (cleanup openState).1 = ((cleanup openState).1, []) ∧
    (doubleCloseTrace openState true).count Ev.notifyClosed = 1 :=
  c2_close_idempotent openState (by decide)

/-- C6 counterexample: a displayProducts call whose products list is empty
is not treated as unrecognized — onProductsFound is still invoked (with the
empty list) and a ToolResponse for the call's id is still sent. -/
theorem c6_counterexample :
    handleToolCallMsg true
      [{ id := "call-1", name := "displayProducts", products := some [] }] =
    [Ev.productsFound (some []), Ev.toolResponse "call-1"] := by
  decide

/-- C6 amended: for every inbound toolCall whose calls are all named
displayProducts, each call's raw products payload (unvalidated: empty lists,
missing payloads and arbitrary field contents pass through) is delivered to
onProductsFound and is immediately followed by a ToolResponse acknowledging
that call's id; calls with any other name produce no callback and no
response. -/
theorem c6_tool_dispatch (fcs : List FunctionCall)
    (h : ∀ fc ∈ fcs, fc.name = "displayProducts") :
    handleToolCallMsg true fcs =
      fcs.flatMap (fun fc =>
        [Ev.productsFound fc.products, Ev.toolResponse fc.id]) ∧
    (∀ fc ∈ fcs, Ev.productsFound fc.products ∈ handleToolCallMsg true fcs ∧
      Ev.toolResponse fc.id ∈ handleToolCallMsg true fcs) ∧
    (∀ gcs : List FunctionCall, (∀ gc ∈ gcs, gc.name ≠ "displayProducts") →
      handleToolCallMsg true gcs = []) := by
  refine ⟨handleToolCallMsg_all fcs h, ?_, handleToolCallMsg_none⟩
  intro fc hfc
  have hn := h fc hfc
  constructor
  · simp only [handleToolCallMsg, List.mem_flatMap]
    exact ⟨fc, hfc, by simp [hn]⟩
  · simp only [handleToolCallMsg, List.mem_flatMap]
    exact ⟨fc, hfc, by simp [hn]⟩

/-- A concrete two-item displayProducts call. -/
def twoItemCall : List FunctionCall :=
  [{ id := "call-2", name := "displayProducts",
     products := some
       [{ brand := "A", name := "Dress", price := "$10",
          description := "red dress", category := some "Dress" },
        { brand := "B", name := "Coat", price := "$20",
          description := "blue coat", category := none }] }]

/-- C6 witness: dispatch of the two-item displayProducts call delivers the
payload and the acknowledgment for that call's id. -/
theorem c6_tool_dispatch_witness :
    handleToolCallMsg true twoItemCall =
      twoItemCall.flatMap
        (fun fc => [Ev.productsFound fc.products, Ev.toolResponse fc.id]) :=
  (c6_tool_dispatch twoItemCall (by decide)).1

/-- C7 counterexample: the transport's error callback on the fully open
state leaves every ref untouched (the session stays open: no teardown step
runs) and emits no host notification — an unrecoverable transport fault does
not force the Closing sequence. -/
theorem c7_counterexample :
    onerrorHandler openState = (openState, [Ev.logError "Live Session Error"]) ∧
    (onerrorHandler openState).2.count Ev.notifyClosed = 0 := by
  decide

/-- C7 amended: a non-fatal per-message error is logged and the session
state is unchanged with no host notification; the transport's error event is
likewise only logged, with no teardown and no notification; the host is
notified (exactly once, via onClosed) only by the transport's close event,
and only while the mounted guard holds. -/
theorem c7_error_policy (s : Refs) (mounted : Bool) :
    onmessageCatch s = (s, [Ev.logError "Error processing message"]) ∧
    (onmessageCatch s).2.count Ev.notifyClosed = 0 ∧
    onerrorHandler s = (s, [Ev.logError "Live Session Error"]) ∧
    (onerrorHandler s).2.count Ev.notifyClosed = 0 ∧
    (oncloseHandler mounted).count Ev.notifyClosed =
      (if mounted then 1 else 0) ∧
    (remoteCloseTrace s mounted).count Ev.notifyClosed =
      (if mounted then 1 else 0) := by
  refine ⟨rfl, by simp [onmessageCatch], rfl, by simp [onerrorHandler], ?_, ?_⟩
  · cases mounted <;> simp [oncloseHandler]
  · cases mounted <;>
      simp [remoteCloseTrace, oncloseHandler, List.count_append,
        List.count_eq_zero.mpr (cleanup_no_notify s)]

/-- C9: if the mounted guard is false when the connection handshake
resolves, the fresh session handle is closed immediately and the active
session ref keeps its prior (null) value; and whenever the resolution step
ends with a stored active session that was not already stored, the guard was
true. -/
theorem c9_handshake_guard (m : Bool) (s : Refs)
    (h : s.activeSession = false) :
    (handshakeResolved false s).1.activeSession = false ∧
    (handshakeResolved false s).2 = [Ev.closeSession] ∧
    ((handshakeResolved m s).1.activeSession = true → m = true) := by
  refine ⟨by simp [handshakeResolved, h], by simp [handshakeResolved], ?_⟩
  cases m <;> simp [handshakeResolved, h]

/-- C9 witness: handshake resolution from the pristine (no active session)
state. -/
theorem c9_handshake_guard_witness :
    (handshakeResolved false (cleanup openState).1).1.activeSession = false ∧
    (handshakeResolved false (cleanup openState).1).2 = [Ev.closeSession] ∧
    ((handshakeResolved true (cleanup openState).1).1.activeSession = true →
      true = true) :=
  c9_handshake_guard true (cleanup openState).1 (by decide)

/-- The first buffer runSchedule emits starts no earlier than the incoming
watermark. -/
theorem runSchedule_head_le (l : List (ℚ × ℚ)) (wm : ℚ) :
    ∀ y ∈ (runSchedule wm l).head?, wm ≤ y.1 := by
  cases l with
  | nil => simp [runSchedule]
  | cons b rest =>
    obtain ⟨now, dur⟩ := b
    simp [runSchedule]

/-- Scheduled buffers never overlap: each start time is at least the
previous buffer's start time plus its duration. -/
theorem runSchedule_chain (bufs : List (ℚ × ℚ)) : ∀ wm : ℚ,
    List.Chain' (fun a b => a.1 + a.2 ≤ b.1) (runSchedule wm bufs) := by
  induction bufs with
  | nil => intro wm; simp [runSchedule]
  | cons b rest ih =>
    intro wm
    obtain ⟨now, dur⟩ := b
    rw [runSchedule, List.chain'_cons']
    exact ⟨fun y hy => runSchedule_head_le rest _ y hy, ih _⟩

/-- The watermark never decreases across scheduling steps, provided each
buffer's duration is nonnegative. -/
theorem wmTrace_chain (bufs : List (ℚ × ℚ)) : ∀ wm : ℚ,
    (∀ b ∈ bufs, 0 ≤ b.2) →
    List.Chain' (fun a b => a ≤ b) (wm :: wmTrace wm bufs) := by
  induction bufs with
  | nil => intro wm _; simp [wmTrace]
  | cons b rest ih =>
    intro wm hd
    obtain ⟨now, dur⟩ := b
    have hdur : (0 : ℚ) ≤ dur := hd (now, dur) (by simp)
    rw [wmTrace, List.chain'_cons]
    constructor
    · calc wm ≤ max now wm := le_max_right now wm
        _ ≤ max now wm + dur := le_add_of_nonneg_right hdur
    · exact ih _ (fun x hx => hd x (List.mem_cons_of_mem _ hx))

/-- After each scheduling step the watermark is at least the output clock
reading observed at that step, provided durations are nonnegative. -/
theorem wmTrace_ge_now (bufs : List (ℚ × ℚ)) : ∀ wm : ℚ,
    (∀ b ∈ bufs, 0 ≤ b.2) →
    ∀ p ∈ bufs.zip (wmTrace wm bufs), p.1.1 ≤ p.2 := by
  induction bufs with
  | nil => intro wm _ p hp; simp at hp
  | cons b rest ih =>
    intro wm hd p hp
    obtain ⟨now, dur⟩ := b
    rw [wmTrace, List.zip_cons_cons] at hp
    rcases List.mem_cons.mp hp with h1 | h1
    · subst h1
      have hdur : (0 : ℚ) ≤ dur := hd (now, dur) (by simp)
      show now ≤ max now wm + dur
      calc now ≤ max now wm := le_max_left now wm
        _ ≤ max now wm + dur := le_add_of_nonneg_right hdur
    · exact ih _ (fun x hx => hd x (List.mem_cons_of_mem _ hx)) p h1

/-- C3: each scheduling step computes startTime as the max of the output
clock's reading and the watermark and advances the watermark to startTime
plus the buffer's duration; consecutive buffers never overlap (each start is
at least the previous end); and for nonnegative durations the watermark is
non-decreasing and, after each step, at least the clock reading observed at
that step. -/
theorem c3_watermark (wm : ℚ) (bufs : List (ℚ × ℚ))
    (hdur : ∀ b ∈ bufs, 0 ≤ b.2) :
    (∀ now dur : ℚ, ∀ rest, runSchedule wm ((now, dur) :: rest) =
      (max now wm, dur) :: runSchedule (max now wm + dur) rest) ∧
    List.Chain' (fun a b => a.1 + a.2 ≤ b.1) (runSchedule wm bufs) ∧
    List.Chain' (fun a b => a ≤ b) (wm :: wmTrace wm bufs) ∧
    (∀ p ∈ bufs.zip (wmTrace wm bufs), p.1.1 ≤ p.2) :=
  ⟨fun _ _ _ => rfl, runSchedule_chain bufs wm, wmTrace_chain bufs wm hdur,
    wmTrace_ge_now bufs wm hdur⟩

/-- C3 witness: a concrete run with a gap (the second clock reading jumps
ahead of the watermark) and a back-to-back segment. -/
theorem c3_watermark_witness :
    List.Chain' (fun a b => a.1 + a.2 ≤ b.1)
      (runSchedule 0 [((0 : ℚ), (1 : ℚ) / 2), (1 / 4, 1 / 2), (2, 1)]) :=
  (c3_watermark 0 [(0, 1 / 2), (1 / 4, 1 / 2), (2, 1)] (by norm_num)).2.1

/-- A run of user-direction delta messages emits one non-final update per
delta, each holding the whole buffer accumulated so far, leaves the model
buffer untouched, and ends with the buffer equal to the full concatenation. -/
theorem processMessages_userDeltas (ds : List String) : ∀ u m : String,
    processMessages u m (ds.map userDeltaMsg) =
      (ds.foldl (fun a d => a ++ d) u, m,
        (accumTexts u ds).map (fun t => Ev.userTranscript t false)) := by
  induction ds with
  | nil => intro u m; rfl
  | cons d rest ih =>
    intro u m
    simp only [List.map_cons, processMessages, handleTranscripts, accumUser,
      accumModel, userDeltaMsg, Option.isSome_some, Option.isSome_none,
      if_true, if_false, Bool.false_eq_true, ite_false, ih, accumTexts,
      List.foldl_cons, List.map_cons, List.singleton_append]

/-- A run of agent-direction delta messages emits one non-final update per
delta, each holding the whole buffer accumulated so far, leaves the user
buffer untouched, and ends with the buffer equal to the full concatenation. -/
theorem processMessages_modelDeltas (ds : List String) : ∀ u m : String,
    processMessages u m (ds.map modelDeltaMsg) =
      (u, ds.foldl (fun a d => a ++ d) m,
        (accumTexts m ds).map (fun t => Ev.modelTranscript t false)) := by
  induction ds with
  | nil => intro u m; rfl
  | cons d rest ih =>
    intro u m
    simp only [List.map_cons, processMessages, handleTranscripts, accumUser,
      accumModel, modelDeltaMsg, Option.isSome_some, Option.isSome_none,
      if_true, if_false, Bool.false_eq_true, ite_false, ih, accumTexts,
      List.foldl_cons, List.map_cons, List.nil_append, List.singleton_append]

/-- Successive accumulated buffer contents form an append-extension chain
starting at the initial buffer. -/
theorem accumTexts_chain (ds : List String) : ∀ u : String,
    List.Chain' (fun a b => ∃ t, b = a ++ t) (u :: accumTexts u ds) := by
  induction ds with
  | nil => intro u; simp [accumTexts]
  | cons d rest ih =>
    intro u
    rw [accumTexts, List.chain'_cons]
    exact ⟨⟨d, rfl⟩, ih (u ++ d)⟩

/-- C10: over any run of deltas of either direction, the non-final updates
delivered to the host are exactly the successive whole-buffer contents of
that direction (the cumulative text since the last flush, not the newest
delta), so each direction's successive non-final updates extend the previous
one by an appended suffix; and a single delta step of either direction from
any buffer emits that direction's buffer with the delta appended. -/
theorem c10_cumulative (u m : String) (ds : List String) :
    (processMessages u m (ds.map userDeltaMsg)).2.2 =
      (accumTexts u ds).map (fun t => Ev.userTranscript t false) ∧
    (processMessages u m (ds.map modelDeltaMsg)).2.2 =
      (accumTexts m ds).map (fun t => Ev.modelTranscript t false) ∧
    List.Chain' (fun a b => ∃ t, b = a ++ t) (u :: accumTexts u ds) ∧
    List.Chain' (fun a b => ∃ t, b = a ++ t) (m :: accumTexts m ds) ∧
    (∀ prev pm d : String,
      (handleTranscripts prev pm (userDeltaMsg d)).2.2 =
        [Ev.userTranscript (prev ++ d) false]) ∧
    (∀ pu prev d : String,
      (handleTranscripts pu prev (modelDeltaMsg d)).2.2 =
        [Ev.modelTranscript (prev ++ d) false]) := by
  refine ⟨?_, ?_, accumTexts_chain ds u, accumTexts_chain ds m,
    fun prev pm d => rfl, fun pu prev d => rfl⟩
  · rw [processMessages_userDeltas ds u m]
  · rw [processMessages_modelDeltas ds u m]

/-- ToInt16 is the identity on values whose truncation already lies in the
signed 16-bit range. -/
theorem toInt16_of_range (x : ℤ) (h1 : -32768 ≤ x) (h2 : x ≤ 32767) :
    (if x % 65536 < 32768 then x % 65536 else x % 65536 - 65536) = x := by
  split <;> omega

/-- Truncation toward zero respects a nonnegative integer upper bound. -/
theorem ratTrunc_le (x : ℚ) (c : ℤ) (hc : 0 ≤ c) (h : x ≤ (c : ℚ)) :
    ratTrunc x ≤ c := by
  unfold ratTrunc
  split
  · calc ⌊x⌋ ≤ ⌊(c : ℚ)⌋ := Int.floor_le_floor h
      _ = c := Int.floor_intCast c
  · rename_i h0
    have hx : x ≤ 0 := le_of_lt (lt_of_not_ge h0)
    calc ⌈x⌉ ≤ 0 := Int.ceil_le.mpr (by exact_mod_cast hx)
      _ ≤ c := hc

/-- Truncation toward zero respects a nonpositive integer lower bound. -/
theorem le_ratTrunc (x : ℚ) (c : ℤ) (hc : c ≤ 0) (h : (c : ℚ) ≤ x) :
    c ≤ ratTrunc x := by
  unfold ratTrunc
  split
  · rename_i h0
    have : (0 : ℤ) ≤ ⌊x⌋ := Int.floor_nonneg.mpr h0
    omega
  · calc c = ⌈(c : ℚ)⌉ := (Int.ceil_intCast c).symm
      _ ≤ ⌈x⌉ := Int.ceil_le_ceil h

/-- For a sample in the nominal range, the Int16Array element written by the
capture loop is exactly the spec's truncate-then-wrap 16-bit value, and that
value lies in the signed 16-bit range. -/
theorem sampleToInt16_spec (x : ℚ) (h1 : -1 ≤ x) (h2 : x ≤ 1) :
    sampleToInt16 x = int16Spec x ∧
    -32768 ≤ int16Spec x ∧ int16Spec x ≤ 32767 := by
  have hu : ratTrunc (x * 32768) ≤ 32768 := by
    refine ratTrunc_le _ 32768 (by norm_num) ?_
    push_cast
    linarith
  have hl : (-32768 : ℤ) ≤ ratTrunc (x * 32768) := by
    refine le_ratTrunc _ (-32768) (by norm_num) ?_
    push_cast
    linarith
  by_cases h3 : ratTrunc (x * 32768) = 32768
  · refine ⟨?_, by simp [int16Spec, h3], by simp [int16Spec, h3]⟩
    rw [sampleToInt16, toInt16, int16Spec, h3]
    norm_num
  · have h4 : ratTrunc (x * 32768) ≤ 32767 := by omega
    refine ⟨?_, by simp [int16Spec, h3]; omega, by simp [int16Spec, h3]; omega⟩
    rw [sampleToInt16, toInt16, int16Spec]
    simp only [h3, if_false]
    exact toInt16_of_range _ hl h4

/-- C8: for every captured frame of samples in the nominal float range, the
outbound payload is the base64 encoding of the little-endian byte packing of
the per-sample 16-bit signed values obtained by scaling by 32768 and
truncating (each lying in the signed 16-bit range, with only an exact 1.0
sample wrapping), and the wire constants are 16000 Hz in, 24000 Hz out, and
4096-sample capture frames. -/
theorem c8_outbound_encoding (frame : List ℚ)
    (hs : ∀ x ∈ frame, -1 ≤ x ∧ x ≤ 1) :
    onaudioprocessEncode frame =
      arrayBufferToBase64 (packLE (frame.map int16Spec)) ∧
    (∀ x ∈ frame, -32768 ≤ int16Spec x ∧ int16Spec x ≤ 32767) ∧
    inputSampleRate = 16000 ∧ outputSampleRate = 24000 ∧
    captureFrameSize = 4096 := by
  refine ⟨?_, ?_, rfl, rfl, rfl⟩
  · unfold onaudioprocessEncode
    congr 1
    unfold packLE
    congr 1
    exact List.map_congr_left
      (fun x hx => (sampleToInt16_spec x (hs x hx).1 (hs x hx).2).1)
  · exact fun x hx => (sampleToInt16_spec x (hs x hx).1 (hs x hx).2).2

/-- C8 witness: the encoding identity on a concrete frame holding zero, a
positive sample, the extreme negative sample, and the wrapping sample 1. -/
theorem c8_outbound_encoding_witness :
    onaudioprocessEncode [0, 1 / 2, -1, 1] =
      arrayBufferToBase64 (packLE (([0, 1 / 2, -1, 1] : List ℚ).map int16Spec)) :=
  (c8_outbound_encoding [0, 1 / 2, -1, 1] (by norm_num)).1

/-- C4: on a turn-complete message both buffers end empty; for each
direction the final update with the accumulated text is emitted exactly once
when that accumulation is nonempty and never when it is empty; any final
update carries exactly the accumulated text; and a subsequent delta
accumulates from the reset (empty) buffer, not from the prior utterance. -/
theorem c4_turn_complete (u m : String) (sc : ServerContent)
    (ht : sc.turnComplete = true) :
    (handleTranscripts u m sc).1 = "" ∧
    (handleTranscripts u m sc).2.1 = "" ∧
    ((handleTranscripts u m sc).2.2.count
        (Ev.userTranscript (accumUser u sc) true) =
      if accumUser u sc = "" then 0 else 1) ∧
    ((handleTranscripts u m sc).2.2.count
        (Ev.modelTranscript (accumModel m sc) true) =
      if accumModel m sc = "" then 0 else 1) ∧
    (∀ t, Ev.userTranscript t true ∈ (handleTranscripts u m sc).2.2 →
      t = accumUser u sc ∧ ¬accumUser u sc = "") ∧
    (∀ t, Ev.modelTranscript t true ∈ (handleTranscripts u m sc).2.2 →
      t = accumModel m sc ∧ ¬accumModel m sc = "") ∧
    (∀ d, (handleTranscripts (handleTranscripts u m sc).1
        ((handleTranscripts u m sc).2.1) (userDeltaMsg d)).2.2 =
      [Ev.userTranscript ((handleTranscripts u m sc).1 ++ d) false]) := by
  obtain ⟨du, dm, tc⟩ := sc
  cases tc with
  | false => exact absurd ht (by simp)
  | true =>
    cases du <;> cases dm <;>
      refine ⟨?_, ?_, ?_, ?_, ?_, ?_, ?_⟩ <;>
        simp [handleTranscripts, accumUser, accumModel, userDeltaMsg,
          List.count_cons, List.count_append] <;>
        split_ifs <;>
        simp_all [List.count_cons]

/-- A concrete turn-complete message carrying deltas in both directions. -/
def turnMsg : ServerContent :=
  { inputTranscription := some "lo", outputTranscription := some "ld",
    turnComplete := true }

/-- C4 witness: on a concrete turn-complete message the final user update
with the accumulated text is emitted exactly once. -/
theorem c4_turn_complete_witness :
    (handleTranscripts "hel" "wor" turnMsg).2.2.count
        (Ev.userTranscript (accumUser "hel" turnMsg) true) =
      if accumUser "hel" turnMsg = "" then 0 else 1 :=
  (c4_turn_complete "hel" "wor" turnMsg rfl).2.2.1

end Lumiere
